import Mathlib

/-
Shallow embedding of the physics / collision core of the protoplanetary
repository (src/src/planet.rs and src/src/planet/collisions.rs).
f32 values are modelled as real numbers; bevy Entity ids as naturals;
the bevy HashMap of collision groups as an association list keyed by the
entity id of the group's largest body.
-/

namespace Proto

/-- Model of glam Vec3 over the reals. -/
@[ext]
structure Vec3 where
  x : ℝ
  y : ℝ
  z : ℝ

def Vec3.zero : Vec3 := ⟨0, 0, 0⟩

instance : Add Vec3 := ⟨fun a b => ⟨a.x + b.x, a.y + b.y, a.z + b.z⟩⟩

instance : Sub Vec3 := ⟨fun a b => ⟨a.x - b.x, a.y - b.y, a.z - b.z⟩⟩

instance : Neg Vec3 := ⟨fun a => ⟨-a.x, -a.y, -a.z⟩⟩

instance : SMul ℝ Vec3 := ⟨fun c v => ⟨c * v.x, c * v.y, c * v.z⟩⟩

/-- Componentwise division of a vector by a scalar (glam Vec3 / f32). -/
noncomputable def Vec3.divS (v : Vec3) (c : ℝ) : Vec3 := ⟨v.x / c, v.y / c, v.z / c⟩

@[simp] theorem Vec3.add_def (a b : Vec3) : a + b = ⟨a.x + b.x, a.y + b.y, a.z + b.z⟩ := rfl

@[simp] theorem Vec3.sub_def (a b : Vec3) : a - b = ⟨a.x - b.x, a.y - b.y, a.z - b.z⟩ := rfl

@[simp] theorem Vec3.neg_def (a : Vec3) : -a = ⟨-a.x, -a.y, -a.z⟩ := rfl

@[simp] theorem Vec3.smul_def (c : ℝ) (v : Vec3) : c • v = ⟨c * v.x, c * v.y, c * v.z⟩ := rfl

@[simp] theorem Vec3.divS_def (v : Vec3) (c : ℝ) : v.divS c = ⟨v.x / c, v.y / c, v.z / c⟩ := rfl

/-- Vec3::length_squared. -/
def Vec3.lengthSq (v : Vec3) : ℝ := v.x ^ 2 + v.y ^ 2 + v.z ^ 2

/-- Vec3::length. -/
noncomputable def Vec3.length (v : Vec3) : ℝ := Real.sqrt v.lengthSq

/-- Vec3::normalize_or_zero: the zero vector when the length is zero,
otherwise the unit vector in the same direction. -/
noncomputable def Vec3.normalizeOrZero (v : Vec3) : Vec3 :=
  if v.length = 0 then Vec3.zero else v.divS v.length

/-- Sum of a list of vectors (Rust Iterator::sum over Vec3, from zero). -/
def sumV : List Vec3 → Vec3
  | [] => Vec3.zero
  | v :: rest => v + sumV rest

/-- One simulated body: the components (Transform translation, Mass, Radius,
Velocity, Force accumulator) attached to one planet entity. -/
structure Body where
  entity : ℕ
  pos : Vec3
  mass : ℝ
  radius : ℝ
  vel : Vec3
  force : Vec3

/-- collisions.rs PlanetInfo: the snapshot of a colliding body. -/
structure PlanetInfo where
  entity : ℕ
  mass : ℝ
  vel : Vec3
  pos : Vec3

/-- collisions.rs CollisionGroup. -/
structure CollisionGroup where
  largest : PlanetInfo
  members : List PlanetInfo

/-- The PlanetInfo snapshot taken from a body during the pairwise scan. -/
def infoOf (b : Body) : PlanetInfo := ⟨b.entity, b.mass, b.vel, b.pos⟩

/-- CollisionGroups.map modelled as an association list keyed by the
largest body's entity id. `insertMember gs L S` is
map.entry(L.entity).or_insert(CollisionGroup ⟨L, []⟩).members.push(S). -/
def insertMember : List (ℕ × CollisionGroup) → PlanetInfo → PlanetInfo → List (ℕ × CollisionGroup)
  | [], Lg, Sm => [(Lg.entity, ⟨Lg, [Sm]⟩)]
  | kg :: rest, Lg, Sm =>
    if kg.1 = Lg.entity then (kg.1, ⟨kg.2.largest, kg.2.members ++ [Sm]⟩) :: rest
    else kg :: insertMember rest Lg Sm

/-- Lookup of a collision group by its key. -/
def findGroup : List (ℕ × CollisionGroup) → ℕ → Option CollisionGroup
  | [], _ => none
  | kg :: rest, k => if kg.1 = k then some kg.2 else findGroup rest k

/-- State threaded through the pairwise scan of nbody_system: the Force
accumulator of every entity, and the collision-group map. -/
structure ScanState where
  forces : ℕ → Vec3
  groups : List (ℕ × CollisionGroup)

/-- One iteration of the nbody_system pair loop (planet.rs lines 226-279)
on the pair (b1, b2): either route the pair into a collision group and skip
the force computation, or accumulate the softened gravity contribution of
the pair into both Force accumulators. -/
noncomputable def pairUpdate (grav_const min_dist : ℝ) (st : ScanState) (b1 b2 : Body) :
    ScanState :=
  let sat_to_parent := b2.pos - b1.pos
  let radii_sum := b1.radius + b2.radius
  if sat_to_parent.length < radii_sum then
    let p1 := infoOf b1
    let p2 := infoOf b2
    let ls := if b2.mass < b1.mass then (p1, p2) else (p2, p1)
    { st with groups := insertMember st.groups ls.1 ls.2 }
  else
    let force :=
      ((grav_const * b1.mass * b2.mass) • sat_to_parent.normalizeOrZero).divS
        (sat_to_parent.lengthSq + min_dist)
    { st with forces := fun e =>
        if e = b1.entity then st.forces e + force.divS b1.mass
        else if e = b2.entity then st.forces e - force.divS b2.mass
        else st.forces e }

/-- The ordered pairs visited by Query::iter_combinations_mut: every
unordered pair of distinct list positions, first component earlier. -/
def pairsOf : List Body → List (Body × Body)
  | [] => []
  | b :: rest => rest.map (fun c => (b, c)) ++ pairsOf rest

/-- The Force component currently attached to entity e. -/
def forceOf : List Body → ℕ → Vec3
  | [], _ => Vec3.zero
  | b :: rest, e => if b.entity = e then b.force else forceOf rest e

/-- The whole nbody_system pass: fold the pair loop over every combination,
starting from the bodies' current Force accumulators and an empty
collision-group map (the map is cleared at the end of every resolution). -/
noncomputable def nbodyScan (grav_const min_dist : ℝ) (bodies : List Body) : ScanState :=
  (pairsOf bodies).foldl (fun st p => pairUpdate grav_const min_dist st p.1 p.2)
    ⟨forceOf bodies, []⟩

/-- planet.rs radius_from_mass: 3.0 * mass.cbrt(). `cbrt` is the real cube
root, sign-preserving like f32::cbrt. -/
noncomputable def cbrt (x : ℝ) : ℝ :=
  if 0 ≤ x then x ^ ((1 : ℝ) / 3) else -((-x) ^ ((1 : ℝ) / 3))

noncomputable def radius_from_mass (mass : ℝ) : ℝ := 3 * cbrt mass

/-- Modelled from the spec: the inverse mapping mass_from_radius(r) =
(r/k)^3 with k = 3.0; it appears in spec sections 3 and 8 but nowhere in
src/, so it is transcribed from the spec's words. -/
noncomputable def mass_from_radius (r : ℝ) : ℝ := (r / 3) ^ 3

/-- collisions.rs CollisionGroup::iter_all_planets: the largest body
followed by all members. -/
def iter_all_planets (g : CollisionGroup) : List PlanetInfo := g.largest :: g.members

/-- collision_resolution_system: total mass of a group. -/
def total_mass (g : CollisionGroup) : ℝ := ((iter_all_planets g).map (fun p => p.mass)).sum

/-- collision_resolution_system: total momentum of a group. -/
def total_momentum (g : CollisionGroup) : Vec3 :=
  sumV ((iter_all_planets g).map (fun p => p.mass • p.vel))

/-- collision_resolution_system: mass-weighted centre of mass of a group. -/
noncomputable def center_of_mass (g : CollisionGroup) : Vec3 :=
  (sumV ((iter_all_planets g).map (fun p => p.mass • p.pos))).divS (total_mass g)

/-- collision_resolution_system: the merged velocity. -/
noncomputable def new_velocity (g : CollisionGroup) : Vec3 :=
  (total_momentum g).divS (total_mass g)

/-- The write performed on the surviving body of a group (collisions.rs
lines 104-110): velocity, mass, radius and translation are replaced by the
group's resolved values. -/
noncomputable def resolveBody (g : CollisionGroup) (b : Body) : Body :=
  { b with
    vel := new_velocity g
    mass := total_mass g
    radius := radius_from_mass (total_mass g)
    pos := center_of_mass g }

/-- Entities despawned by the resolver: every member of every group. -/
def removedEntities (groups : List (ℕ × CollisionGroup)) : List ℕ :=
  (groups.map (fun kg => kg.2.members.map (fun p => p.entity))).flatten

/-- Drop every body whose entity was despawned. -/
def removeBodies (removed : List ℕ) : List Body → List Body
  | [] => []
  | b :: rest =>
    if b.entity ∈ removed then removeBodies removed rest
    else b :: removeBodies removed rest

/-- Apply a group's resolved values to the body keyed by it, if any. -/
noncomputable def resolveStep (groups : List (ℕ × CollisionGroup)) (b : Body) : Body :=
  match findGroup groups b.entity with
  | some g => resolveBody g b
  | none => b

/-- collision_resolution_system on the whole body set: despawn all group
members, and write each group's resolved values onto its surviving body. -/
noncomputable def applyResolution (groups : List (ℕ × CollisionGroup)) (bodies : List Body) :
    List Body :=
  (removeBodies (removedEntities groups) bodies).map (resolveStep groups)

/-- physics_system (planet.rs lines 189-195) on one body: velocity gains
net_force / mass, position gains the updated velocity, and the Force
accumulator is reset to zero. The code advances one frame per call, with
no explicit dt factor (dt = 1 frame). -/
noncomputable def physicsStep (b : Body) : Body :=
  let v := b.vel + b.force.divS b.mass
  { b with vel := v, pos := b.pos + v, force := Vec3.zero }

/-- One full simulation step on the body set: the nbody pass (Update),
then collision resolution and integration (PostUpdate). With the forces
and snapshots taken during the scan, the final body set is the same in
either PostUpdate order; resolution-then-integration is modelled. -/
noncomputable def stepBodies (grav_const min_dist : ℝ) (bodies : List Body) : List Body :=
  let st := nbodyScan grav_const min_dist bodies
  let bodies1 := bodies.map (fun b => { b with force := st.forces b.entity })
  (applyResolution st.groups bodies1).map physicsStep

/-- planet.rs attraction_force (lines 197-209). -/
noncomputable def attraction_force (sat_mass : ℝ) (sat_pos : Vec3) (parent_mass : ℝ)
    (parent_pos : Vec3) (grav_const min_dist : ℝ) : Vec3 :=
  let sat_to_parent := parent_pos - sat_pos
  let toward_parent := sat_to_parent.normalizeOrZero
  ((grav_const * sat_mass * parent_mass) • toward_parent).divS
    (sat_to_parent.lengthSq + min_dist)

/-- spawn_planet_system (planet.rs lines 119-181) after the optional
fields of the event have been filled: the spawned body's radius is always
radius_from_mass of its mass, and its Force accumulator starts at zero. -/
noncomputable def spawnBody (e : ℕ) (pos : Vec3) (m : ℝ) (vel : Vec3) : Body :=
  ⟨e, pos, m, radius_from_mass m, vel, Vec3.zero⟩

/-- The entity ids listed in a group's members vector. -/
def memberEntities (g : CollisionGroup) : List ℕ := g.members.map (fun p => p.entity)

/-- The entity ids of a body list. -/
def entitiesOf (bodies : List Body) : List ℕ := bodies.map (fun b => b.entity)

/-- Equality of (a, b) and (c, d) as unordered pairs of entity ids. -/
def uEq (a b c d : ℕ) : Prop := (a = c ∧ b = d) ∨ (a = d ∧ b = c)

/-- The entity pairs of a list of body pairs. -/
def epairs (L : List (Body × Body)) : List (ℕ × ℕ) :=
  L.map (fun p => (p.1.entity, p.2.entity))

/-- Invariant carried through the pair scan: every recorded group has
duplicate-free members, and no recorded (group key, member) unordered pair
coincides with an entity pair still to be visited. -/
def GroupsInv (gs : List (ℕ × CollisionGroup)) (L : List (ℕ × ℕ)) : Prop :=
  ∀ kg ∈ gs, (memberEntities kg.2).Nodup ∧
    ∀ me ∈ memberEntities kg.2, ∀ q ∈ L, ¬ uEq kg.1 me q.1 q.2

theorem Vec3.lengthSq_nonneg (v : Vec3) : 0 ≤ v.lengthSq := by
  rw [Vec3.lengthSq]; positivity

theorem Vec3.length_nonneg (v : Vec3) : 0 ≤ v.length := Real.sqrt_nonneg _

theorem Vec3.divS_eq_smul (v : Vec3) (c : ℝ) : v.divS c = c⁻¹ • v := by
  ext <;> simp [div_eq_inv_mul]

theorem Vec3.length_smul (c : ℝ) (v : Vec3) : (c • v).length = |c| * v.length := by
  have h : (c • v).lengthSq = c ^ 2 * v.lengthSq := by
    simp [Vec3.lengthSq]; ring
  rw [Vec3.length, h, Real.sqrt_mul (sq_nonneg c), Real.sqrt_sq_eq_abs, Vec3.length]

theorem Vec3.length_normalizeOrZero (v : Vec3) (h : v.length ≠ 0) :
    v.normalizeOrZero.length = 1 := by
  rw [Vec3.normalizeOrZero, if_neg h, Vec3.divS_eq_smul, Vec3.length_smul, abs_inv,
    abs_of_nonneg (Vec3.length_nonneg v), inv_mul_cancel₀ h]

theorem cbrt_cubed (m : ℝ) : cbrt m ^ 3 = m := by
  rw [cbrt]
  by_cases h : 0 ≤ m
  · rw [if_pos h, ← Real.rpow_natCast (m ^ ((1 : ℝ) / 3)) 3, ← Real.rpow_mul h]
    norm_num
  · rw [if_neg h]
    have h2 : 0 ≤ -m := by linarith
    have h3 : ((-m) ^ ((1 : ℝ) / 3)) ^ (3 : ℕ) = -m := by
      rw [← Real.rpow_natCast ((-m) ^ ((1 : ℝ) / 3)) 3, ← Real.rpow_mul h2]
      norm_num
    have h4 : (-((-m) ^ ((1 : ℝ) / 3))) ^ (3 : ℕ) = -(((-m) ^ ((1 : ℝ) / 3)) ^ (3 : ℕ)) := by
      ring
    rw [h4, h3, neg_neg]

theorem mem_removeBodies (removed : List ℕ) (l : List Body) (c : Body)
    (h : c ∈ removeBodies removed l) : c.entity ∉ removed := by
  induction l with
  | nil => simp [removeBodies] at h
  | cons b rest ih =>
    rw [removeBodies] at h
    by_cases hb : b.entity ∈ removed
    · rw [if_pos hb] at h
      exact ih h
    · rw [if_neg hb] at h
      rcases List.mem_cons.mp h with rfl | h2
      · exact hb
      · exact ih h2

theorem resolveStep_entity (groups : List (ℕ × CollisionGroup)) (b : Body) :
    (resolveStep groups b).entity = b.entity := by
  rw [resolveStep]
  cases findGroup groups b.entity <;> rfl

theorem member_mem_removed (groups : List (ℕ × CollisionGroup)) (kg : ℕ × CollisionGroup)
    (hkg : kg ∈ groups) (m : PlanetInfo) (hm : m ∈ kg.2.members) :
    m.entity ∈ removedEntities groups := by
  rw [removedEntities, List.mem_flatten]
  exact ⟨kg.2.members.map (fun p => p.entity), List.mem_map.mpr ⟨kg, hkg, rfl⟩,
    List.mem_map.mpr ⟨m, hm, rfl⟩⟩

/-- C6: physics_system updates velocity by net_force / mass (the code's
timestep is one frame, dt = 1), then position by the updated velocity, and
then resets the body's Force accumulator to exactly zero. -/
theorem integrator_updates_and_clears (b : Body) :
    (physicsStep b).vel = b.vel + b.force.divS b.mass ∧
    (physicsStep b).pos = b.pos + (b.vel + b.force.divS b.mass) ∧
    (physicsStep b).force = Vec3.zero :=
  ⟨rfl, rfl, rfl⟩

/-- C2: for every collision group with positive total mass, the resolved
new_velocity multiplied by the total mass equals the sum of mass times
velocity over the largest body and all members: the merge conserves total
momentum. -/
theorem merge_conserves_momentum (g : CollisionGroup) (h : 0 < total_mass g) :
    total_mass g • new_velocity g
      = sumV ((g.largest :: g.members).map (fun p => p.mass • p.vel)) := by
  have hne : total_mass g ≠ 0 := ne_of_gt h
  have hm : total_momentum g
      = sumV ((g.largest :: g.members).map (fun p => p.mass • p.vel)) := rfl
  rw [new_velocity, ← hm]
  ext <;> simp [Vec3.divS] <;> field_simp

/-- Witness for C2 on a two-body group of masses 3 and 1. -/
theorem merge_conserves_momentum_witness :
    (0 : ℝ) < total_mass ⟨⟨0, 3, ⟨2, 0, 0⟩, ⟨0, 0, 0⟩⟩, [⟨1, 1, ⟨-2, 0, 0⟩, ⟨4, 0, 0⟩⟩]⟩ ∧
    total_mass ⟨⟨0, 3, ⟨2, 0, 0⟩, ⟨0, 0, 0⟩⟩, [⟨1, 1, ⟨-2, 0, 0⟩, ⟨4, 0, 0⟩⟩]⟩
        • new_velocity ⟨⟨0, 3, ⟨2, 0, 0⟩, ⟨0, 0, 0⟩⟩, [⟨1, 1, ⟨-2, 0, 0⟩, ⟨4, 0, 0⟩⟩]⟩
      = sumV (([(⟨0, 3, ⟨2, 0, 0⟩, ⟨0, 0, 0⟩⟩ : PlanetInfo),
          ⟨1, 1, ⟨-2, 0, 0⟩, ⟨4, 0, 0⟩⟩]).map (fun p => p.mass • p.vel)) :=
  ⟨by norm_num [total_mass, iter_all_planets],
    merge_conserves_momentum ⟨⟨0, 3, ⟨2, 0, 0⟩, ⟨0, 0, 0⟩⟩, [⟨1, 1, ⟨-2, 0, 0⟩, ⟨4, 0, 0⟩⟩]⟩
      (by norm_num [total_mass, iter_all_planets])⟩

/-- C3: the resolver's total_mass is exactly the largest body's mass plus
the sum of the member masses; the surviving body keeps its identity and
receives total_mass, radius_from_mass total_mass, new_velocity and the
mass-weighted centre of mass; and after resolution no body with a member's
entity id remains. -/
theorem merge_totals_and_removal (g : CollisionGroup) (b : Body)
    (groups : List (ℕ × CollisionGroup)) (bodies : List Body) :
    total_mass g = g.largest.mass + (g.members.map (fun p => p.mass)).sum ∧
    (resolveBody g b).mass = total_mass g ∧
    (resolveBody g b).radius = radius_from_mass (total_mass g) ∧
    (resolveBody g b).vel = new_velocity g ∧
    (resolveBody g b).pos = center_of_mass g ∧
    (resolveBody g b).entity = b.entity ∧
    center_of_mass g
      = (sumV ((g.largest :: g.members).map (fun p => p.mass • p.pos))).divS (total_mass g) ∧
    ∀ c ∈ applyResolution groups bodies, ∀ kg ∈ groups, ∀ m ∈ kg.2.members,
      c.entity ≠ m.entity := by
  refine ⟨by simp [total_mass, iter_all_planets], rfl, rfl, rfl, rfl, rfl, rfl, ?_⟩
  intro c hc kg hkg m hm
  rw [applyResolution] at hc
  obtain ⟨c0, hc0, rfl⟩ := List.mem_map.mp hc
  rw [resolveStep_entity]
  intro hEq
  exact mem_removeBodies _ _ _ hc0 (hEq ▸ member_mem_removed groups kg hkg m hm)

/-- C8: a spawned body's radius is radius_from_mass of its mass, a merged
body's radius is radius_from_mass of its merged mass (k = 3.0), and the
spec's inverse mapping round-trips: mass_from_radius (radius_from_mass m)
= m for every mass. -/
theorem radius_mass_consistency :
    (∀ (e : ℕ) (pos : Vec3) (m : ℝ) (vel : Vec3),
      (spawnBody e pos m vel).radius = radius_from_mass (spawnBody e pos m vel).mass) ∧
    (∀ (g : CollisionGroup) (b : Body),
      (resolveBody g b).radius = radius_from_mass (resolveBody g b).mass) ∧
    (∀ m : ℝ, mass_from_radius (radius_from_mass m) = m) := by
  refine ⟨fun e pos m vel => rfl, fun g b => rfl, fun m => ?_⟩
  rw [mass_from_radius, radius_from_mass]
  have h : (3 : ℝ) * cbrt m / 3 = cbrt m := by ring
  rw [h, cbrt_cubed]

/-- C9: with nonnegative masses and gravitational constant and positive
softening, the softened denominator is strictly positive; at zero
separation the computed attraction is exactly the zero vector; and at
nonzero separation its magnitude is G * mA * mB / (r^2 + eps). -/
theorem attraction_force_soft_finite (mA : ℝ) (pA : Vec3) (mB : ℝ) (pB : Vec3)
    (G eps : ℝ) (hG : 0 ≤ G) (hA : 0 ≤ mA) (hB : 0 ≤ mB) (heps : 0 < eps) :
    0 < (pB - pA).lengthSq + eps ∧
    (pA = pB → attraction_force mA pA mB pB G eps = Vec3.zero) ∧
    ((pB - pA).length ≠ 0 →
      (attraction_force mA pA mB pB G eps).length
        = G * mA * mB / ((pB - pA).lengthSq + eps)) := by
  refine ⟨?_, ?_, ?_⟩
  · have h := Vec3.lengthSq_nonneg (pB - pA)
    linarith
  · intro h
    subst h
    have hz : (pA - pA) = (⟨0, 0, 0⟩ : Vec3) := by ext <;> simp
    have hlen : (pA - pA).length = 0 := by
      rw [hz, Vec3.length, Vec3.lengthSq]
      norm_num
    rw [attraction_force]
    simp only [Vec3.normalizeOrZero, hlen, if_pos]
    rw [hz]
    ext <;> simp [Vec3.zero, Vec3.lengthSq]
  · intro h
    simp only [attraction_force]
    rw [Vec3.divS_eq_smul, Vec3.length_smul, Vec3.length_smul,
      Vec3.length_normalizeOrZero _ h, mul_one, abs_inv]
    have hd : 0 < (pB - pA).lengthSq + eps := by
      have h2 := Vec3.lengthSq_nonneg (pB - pA)
      linarith
    rw [abs_of_pos hd, abs_of_nonneg (by positivity), div_eq_inv_mul]

/-- Witness for C9 at coincident positions with unit masses, G = 1 and
eps = 1. -/
theorem attraction_force_soft_finite_witness :
    attraction_force 1 ⟨0, 0, 0⟩ 1 ⟨0, 0, 0⟩ 1 1 = Vec3.zero :=
  (attraction_force_soft_finite 1 ⟨0, 0, 0⟩ 1 ⟨0, 0, 0⟩ 1 1 (by norm_num) (by norm_num)
    (by norm_num) (by norm_num)).2.1 rfl

/-- C5: when the pair's separation is below the sum of the radii, no force
is accumulated on either body and the pair is routed into the collision
map, the strictly heavier body becoming the group key and the other being
appended with its current position, velocity and mass snapshot; otherwise
the collision map is left untouched. -/
theorem pair_collision_routing (G eps : ℝ) (st : ScanState) (b1 b2 : Body) :
    ((b2.pos - b1.pos).length < b1.radius + b2.radius →
      ((pairUpdate G eps st b1 b2).forces = st.forces ∧
       (b2.mass < b1.mass →
         (pairUpdate G eps st b1 b2).groups
           = insertMember st.groups ⟨b1.entity, b1.mass, b1.vel, b1.pos⟩
               ⟨b2.entity, b2.mass, b2.vel, b2.pos⟩) ∧
       (b1.mass < b2.mass →
         (pairUpdate G eps st b1 b2).groups
           = insertMember st.groups ⟨b2.entity, b2.mass, b2.vel, b2.pos⟩
               ⟨b1.entity, b1.mass, b1.vel, b1.pos⟩))) ∧
    (¬ (b2.pos - b1.pos).length < b1.radius + b2.radius →
      (pairUpdate G eps st b1 b2).groups = st.groups) := by
  constructor
  · intro hcol
    simp only [pairUpdate]
    rw [if_pos hcol]
    refine ⟨rfl, ?_, ?_⟩
    · intro h
      rw [if_pos h]
      rfl
    · intro h
      rw [if_neg (lt_asymm h)]
      rfl
  · intro hcol
    simp only [pairUpdate]
    rw [if_neg hcol]

/-- Witness for C5 on an overlapping pair of masses 2 and 1 at the same
position. -/
theorem pair_collision_routing_witness :
    (pairUpdate 1 1 ⟨fun _ => Vec3.zero, []⟩ ⟨0, ⟨0, 0, 0⟩, 2, 1, ⟨0, 0, 0⟩, ⟨0, 0, 0⟩⟩
        ⟨1, ⟨0, 0, 0⟩, 1, 1, ⟨0, 0, 0⟩, ⟨0, 0, 0⟩⟩).forces = (fun _ => Vec3.zero) ∧
    (pairUpdate 1 1 ⟨fun _ => Vec3.zero, []⟩ ⟨0, ⟨0, 0, 0⟩, 2, 1, ⟨0, 0, 0⟩, ⟨0, 0, 0⟩⟩
        ⟨1, ⟨0, 0, 0⟩, 1, 1, ⟨0, 0, 0⟩, ⟨0, 0, 0⟩⟩).groups
      = insertMember [] ⟨0, 2, ⟨0, 0, 0⟩, ⟨0, 0, 0⟩⟩ ⟨1, 1, ⟨0, 0, 0⟩, ⟨0, 0, 0⟩⟩ := by
  have hcol : ((⟨0, ⟨0, 0, 0⟩, 1, 1, ⟨0, 0, 0⟩, ⟨0, 0, 0⟩⟩ : Body).pos
      - (⟨0, ⟨0, 0, 0⟩, 2, 1, ⟨0, 0, 0⟩, ⟨0, 0, 0⟩⟩ : Body).pos).length
      < (⟨0, ⟨0, 0, 0⟩, 2, 1, ⟨0, 0, 0⟩, ⟨0, 0, 0⟩⟩ : Body).radius
        + (⟨0, ⟨0, 0, 0⟩, 1, 1, ⟨0, 0, 0⟩, ⟨0, 0, 0⟩⟩ : Body).radius := by
    norm_num [Vec3.length, Vec3.lengthSq]
  have h := pair_collision_routing 1 1 ⟨fun _ => Vec3.zero, []⟩
    ⟨0, ⟨0, 0, 0⟩, 2, 1, ⟨0, 0, 0⟩, ⟨0, 0, 0⟩⟩ ⟨1, ⟨0, 0, 0⟩, 1, 1, ⟨0, 0, 0⟩, ⟨0, 0, 0⟩⟩
  exact ⟨(h.1 hcol).1, (h.1 hcol).2.1 (by norm_num)⟩

/-- C10: when a colliding pair has exactly equal masses, the strict
greater-than comparison on the first body's mass fails, so the second body
of the enumerated pair becomes the group's larger (surviving) body and the
first is appended as the removed smaller member. -/
theorem equal_mass_tie_picks_second (G eps : ℝ) (st : ScanState) (b1 b2 : Body)
    (heq : b1.mass = b2.mass)
    (hcol : (b2.pos - b1.pos).length < b1.radius + b2.radius) :
    (pairUpdate G eps st b1 b2).groups
      = insertMember st.groups ⟨b2.entity, b2.mass, b2.vel, b2.pos⟩
          ⟨b1.entity, b1.mass, b1.vel, b1.pos⟩ := by
  simp only [pairUpdate]
  rw [if_pos hcol, if_neg (by rw [heq]; exact lt_irrefl _)]
  rfl

/-- Witness for C10 on an overlapping pair of equal masses at the same
position. -/
theorem equal_mass_tie_picks_second_witness :
    (pairUpdate 1 1 ⟨fun _ => Vec3.zero, []⟩ ⟨0, ⟨0, 0, 0⟩, 5, 1, ⟨0, 0, 0⟩, ⟨0, 0, 0⟩⟩
        ⟨1, ⟨0, 0, 0⟩, 5, 1, ⟨0, 0, 0⟩, ⟨0, 0, 0⟩⟩).groups
      = insertMember [] ⟨1, 5, ⟨0, 0, 0⟩, ⟨0, 0, 0⟩⟩ ⟨0, 5, ⟨0, 0, 0⟩, ⟨0, 0, 0⟩⟩ :=
  equal_mass_tie_picks_second 1 1 ⟨fun _ => Vec3.zero, []⟩
    ⟨0, ⟨0, 0, 0⟩, 5, 1, ⟨0, 0, 0⟩, ⟨0, 0, 0⟩⟩ ⟨1, ⟨0, 0, 0⟩, 5, 1, ⟨0, 0, 0⟩, ⟨0, 0, 0⟩⟩
    rfl (by norm_num [Vec3.length, Vec3.lengthSq])

/-- C1: at a concrete non-colliding pair of masses 1 and 2, the pairwise
pass adds force / m1 to the first accumulator and subtracts force / m2
from the second, so the two contributions are not exact negations of each
other: the code divides the pair force by each body's own mass before
accumulating it, although the integrator divides the accumulator by the
mass again. -/
theorem nbody_contributions_not_opposite :
    (nbodyScan 1 1 [⟨1, ⟨0, 0, 0⟩, 1, 1 / 2, ⟨0, 0, 0⟩, ⟨0, 0, 0⟩⟩,
        ⟨2, ⟨2, 0, 0⟩, 2, 1 / 2, ⟨0, 0, 0⟩, ⟨0, 0, 0⟩⟩]).forces 1 = ⟨2 / 5, 0, 0⟩ ∧
    (nbodyScan 1 1 [⟨1, ⟨0, 0, 0⟩, 1, 1 / 2, ⟨0, 0, 0⟩, ⟨0, 0, 0⟩⟩,
        ⟨2, ⟨2, 0, 0⟩, 2, 1 / 2, ⟨0, 0, 0⟩, ⟨0, 0, 0⟩⟩]).forces 2 = ⟨-1 / 5, 0, 0⟩ ∧
    ¬ (nbodyScan 1 1 [⟨1, ⟨0, 0, 0⟩, 1, 1 / 2, ⟨0, 0, 0⟩, ⟨0, 0, 0⟩⟩,
        ⟨2, ⟨2, 0, 0⟩, 2, 1 / 2, ⟨0, 0, 0⟩, ⟨0, 0, 0⟩⟩]).forces 1
      = -((nbodyScan 1 1 [⟨1, ⟨0, 0, 0⟩, 1, 1 / 2, ⟨0, 0, 0⟩, ⟨0, 0, 0⟩⟩,
        ⟨2, ⟨2, 0, 0⟩, 2, 1 / 2, ⟨0, 0, 0⟩, ⟨0, 0, 0⟩⟩]).forces 2) := by
  have h4 : Real.sqrt 4 = 2 := by
    rw [show (4 : ℝ) = 2 ^ 2 by norm_num]
    exact Real.sqrt_sq (by norm_num)
  norm_num [nbodyScan, pairsOf, pairUpdate, forceOf, Vec3.length, Vec3.lengthSq,
    Vec3.normalizeOrZero, Vec3.zero, h4]

/-- C7: two bodies of mass 10 at (-5,0,0) and (5,0,0) with velocities
(1,0,0) and (-1,0,0) and radii large enough to overlap at this spacing
merge in one full step into exactly one surviving body of mass 20 at rest
at the origin. -/
theorem head_on_equal_mass_merge (G eps r : ℝ) (hr : 10 < r + r) :
    stepBodies G eps [⟨1, ⟨-5, 0, 0⟩, 10, r, ⟨1, 0, 0⟩, ⟨0, 0, 0⟩⟩,
        ⟨2, ⟨5, 0, 0⟩, 10, r, ⟨-1, 0, 0⟩, ⟨0, 0, 0⟩⟩]
      = [⟨2, ⟨0, 0, 0⟩, 20, radius_from_mass 20, ⟨0, 0, 0⟩, ⟨0, 0, 0⟩⟩] := by
  have h100 : Real.sqrt 100 = 10 := by
    rw [show (100 : ℝ) = 10 ^ 2 by norm_num]
    exact Real.sqrt_sq (by norm_num)
  norm_num [stepBodies, nbodyScan, pairsOf, pairUpdate, forceOf, applyResolution,
    removedEntities, removeBodies, resolveStep, resolveBody, findGroup, insertMember,
    total_mass, iter_all_planets, new_velocity, total_momentum, center_of_mass, sumV,
    physicsStep, infoOf, Function.comp, Vec3.length, Vec3.lengthSq, Vec3.zero, h100, hr]

/-- Witness for C7 with radius 7, which overlaps at separation 10. -/
theorem head_on_equal_mass_merge_witness :
    stepBodies 1 1 [⟨1, ⟨-5, 0, 0⟩, 10, 7, ⟨1, 0, 0⟩, ⟨0, 0, 0⟩⟩,
        ⟨2, ⟨5, 0, 0⟩, 10, 7, ⟨-1, 0, 0⟩, ⟨0, 0, 0⟩⟩]
      = [⟨2, ⟨0, 0, 0⟩, 20, radius_from_mass 20, ⟨0, 0, 0⟩, ⟨0, 0, 0⟩⟩] :=
  head_on_equal_mass_merge 1 1 7 (by norm_num)

/-- C4 counterexample: with three mutually overlapping bodies of masses
3, 2, 1 the scan never excludes a body that was already grouped, so body 2
ends up in the members list of the group keyed by body 0 and also in the
members list of the group keyed by body 1: a body can appear in two
different groups' members lists in one scan. -/
theorem member_in_two_groups :
    findGroup (nbodyScan 1 1 [⟨0, ⟨0, 0, 0⟩, 3, 1, ⟨0, 0, 0⟩, ⟨0, 0, 0⟩⟩,
        ⟨1, ⟨0, 0, 0⟩, 2, 1, ⟨0, 0, 0⟩, ⟨0, 0, 0⟩⟩,
        ⟨2, ⟨0, 0, 0⟩, 1, 1, ⟨0, 0, 0⟩, ⟨0, 0, 0⟩⟩]).groups 0
      = some ⟨⟨0, 3, ⟨0, 0, 0⟩, ⟨0, 0, 0⟩⟩,
          [⟨1, 2, ⟨0, 0, 0⟩, ⟨0, 0, 0⟩⟩, ⟨2, 1, ⟨0, 0, 0⟩, ⟨0, 0, 0⟩⟩]⟩ ∧
    findGroup (nbodyScan 1 1 [⟨0, ⟨0, 0, 0⟩, 3, 1, ⟨0, 0, 0⟩, ⟨0, 0, 0⟩⟩,
        ⟨1, ⟨0, 0, 0⟩, 2, 1, ⟨0, 0, 0⟩, ⟨0, 0, 0⟩⟩,
        ⟨2, ⟨0, 0, 0⟩, 1, 1, ⟨0, 0, 0⟩, ⟨0, 0, 0⟩⟩]).groups 1
      = some ⟨⟨1, 2, ⟨0, 0, 0⟩, ⟨0, 0, 0⟩⟩, [⟨2, 1, ⟨0, 0, 0⟩, ⟨0, 0, 0⟩⟩]⟩ ∧
    2 ∈ memberEntities ⟨⟨0, 3, ⟨0, 0, 0⟩, ⟨0, 0, 0⟩⟩,
        [⟨1, 2, ⟨0, 0, 0⟩, ⟨0, 0, 0⟩⟩, ⟨2, 1, ⟨0, 0, 0⟩, ⟨0, 0, 0⟩⟩]⟩ ∧
    2 ∈ memberEntities ⟨⟨1, 2, ⟨0, 0, 0⟩, ⟨0, 0, 0⟩⟩, [⟨2, 1, ⟨0, 0, 0⟩, ⟨0, 0, 0⟩⟩]⟩ := by
  norm_num [nbodyScan, pairsOf, pairUpdate, forceOf, insertMember, findGroup, infoOf,
    memberEntities, Vec3.length, Vec3.lengthSq, Vec3.zero]

theorem mem_insertMember (Lg Sm : PlanetInfo) (gs : List (ℕ × CollisionGroup))
    (kg : ℕ × CollisionGroup) (h : kg ∈ insertMember gs Lg Sm) :
    kg ∈ gs ∨
    (∃ kg0, kg0 ∈ gs ∧ kg0.1 = Lg.entity ∧
      kg = (kg0.1, ⟨kg0.2.largest, kg0.2.members ++ [Sm]⟩)) ∨
    kg = (Lg.entity, ⟨Lg, [Sm]⟩) := by
  induction gs with
  | nil =>
    rw [insertMember] at h
    right; right
    simpa using h
  | cons hd rest ih =>
    rw [insertMember] at h
    by_cases hk : hd.1 = Lg.entity
    · rw [if_pos hk] at h
      rcases List.mem_cons.mp h with rfl | h2
      · right; left
        exact ⟨hd, List.mem_cons_self _ _, hk, rfl⟩
      · left
        exact List.mem_cons_of_mem _ h2
    · rw [if_neg hk] at h
      rcases List.mem_cons.mp h with rfl | h2
      · left
        exact List.mem_cons_self _ _
      · rcases ih h2 with h3 | h3 | h3
        · left
          exact List.mem_cons_of_mem _ h3
        · right; left
          obtain ⟨kg0, hm, he, hq⟩ := h3
          exact ⟨kg0, List.mem_cons_of_mem _ hm, he, hq⟩
        · right; right
          exact h3

theorem groupsInv_insertMember (gs : List (ℕ × CollisionGroup)) (L : List (ℕ × ℕ))
    (Lg Sm : PlanetInfo) (e1 e2 : ℕ)
    (hLS : uEq Lg.entity Sm.entity e1 e2)
    (hinv : GroupsInv gs ((e1, e2) :: L))
    (hdist : ∀ q ∈ L, ¬ uEq e1 e2 q.1 q.2) :
    GroupsInv (insertMember gs Lg Sm) L := by
  intro kg hkg
  rcases mem_insertMember Lg Sm gs kg hkg with h | ⟨kg0, hm, he, rfl⟩ | rfl
  · obtain ⟨hnd, hq⟩ := hinv kg h
    exact ⟨hnd, fun me hme q hqL => hq me hme q (List.mem_cons_of_mem _ hqL)⟩
  · obtain ⟨hnd, hq⟩ := hinv kg0 hm
    constructor
    · have hnotin : Sm.entity ∉ memberEntities kg0.2 := by
        intro hin
        apply hq Sm.entity hin (e1, e2) (List.mem_cons_self _ _)
        rw [he]
        exact hLS
      simp only [memberEntities, List.map_append, List.map_cons, List.map_nil] at *
      rw [List.nodup_append]
      refine ⟨hnd, List.nodup_singleton _, ?_⟩
      intro a ha hb
      rcases List.mem_singleton.mp hb with rfl
      exact hnotin ha
    · intro me hme q hqL
      simp only [memberEntities, List.map_append, List.map_cons, List.map_nil,
        List.mem_append, List.mem_singleton] at hme
      rcases hme with hme | rfl
      · exact hq me hme q (List.mem_cons_of_mem _ hqL)
      · intro hcon
        apply hdist q hqL
        rw [he] at hcon
        simp only [uEq] at hLS hcon ⊢
        omega
  · constructor
    · simp [memberEntities]
    · intro me hme q hqL
      simp only [memberEntities, List.map_cons, List.map_nil, List.mem_singleton] at hme
      subst hme
      intro hcon
      apply hdist q hqL
      simp only [uEq] at hLS hcon ⊢
      omega

theorem foldl_members_nodup (G eps : ℝ) (L : List (Body × Body)) :
    ∀ st : ScanState,
      (epairs L).Pairwise (fun q r => ¬ uEq q.1 q.2 r.1 r.2) →
      GroupsInv st.groups (epairs L) →
      ∀ kg ∈ (L.foldl (fun s p => pairUpdate G eps s p.1 p.2) st).groups,
        (memberEntities kg.2).Nodup := by
  induction L with
  | nil =>
    intro st hpw hinv kg hkg
    exact (hinv kg hkg).1
  | cons p rest ih =>
    intro st hpw hinv
    rw [List.foldl_cons]
    have hE : epairs (p :: rest) = (p.1.entity, p.2.entity) :: epairs rest := rfl
    rw [hE] at hpw hinv
    have hdist : ∀ q ∈ epairs rest, ¬ uEq p.1.entity p.2.entity q.1 q.2 :=
      (List.pairwise_cons.mp hpw).1
    apply ih
    · exact (List.pairwise_cons.mp hpw).2
    · simp only [pairUpdate]
      by_cases hcol : (p.2.pos - p.1.pos).length < p.1.radius + p.2.radius
      · rw [if_pos hcol]
        by_cases hm : p.2.mass < p.1.mass
        · rw [if_pos hm]
          exact groupsInv_insertMember st.groups (epairs rest) (infoOf p.1) (infoOf p.2)
            p.1.entity p.2.entity (Or.inl ⟨rfl, rfl⟩) hinv hdist
        · rw [if_neg hm]
          exact groupsInv_insertMember st.groups (epairs rest) (infoOf p.2) (infoOf p.1)
            p.1.entity p.2.entity (Or.inr ⟨rfl, rfl⟩) hinv hdist
      · rw [if_neg hcol]
        intro kg hkg
        obtain ⟨h1, h2⟩ := hinv kg hkg
        exact ⟨h1, fun me hme q hq => h2 me hme q (List.mem_cons_of_mem _ hq)⟩

theorem mem_pairsOf (l : List Body) (p : Body × Body) (h : p ∈ pairsOf l) :
    p.1 ∈ l ∧ p.2 ∈ l := by
  induction l with
  | nil => simp [pairsOf] at h
  | cons b rest ih =>
    rw [pairsOf] at h
    rcases List.mem_append.mp h with h1 | h2
    · obtain ⟨c, hc, rfl⟩ := List.mem_map.mp h1
      exact ⟨List.mem_cons_self _ _, List.mem_cons_of_mem _ hc⟩
    · obtain ⟨h3, h4⟩ := ih h2
      exact ⟨List.mem_cons_of_mem _ h3, List.mem_cons_of_mem _ h4⟩

theorem epairs_pairsOf_pairwise (l : List Body) (hnd : (entitiesOf l).Nodup) :
    (epairs (pairsOf l)).Pairwise (fun q r => ¬ uEq q.1 q.2 r.1 r.2) := by
  induction l with
  | nil => simp [pairsOf, epairs]
  | cons b rest ih =>
    simp only [entitiesOf, List.map_cons, List.nodup_cons] at hnd
    obtain ⟨hb, hrest⟩ := hnd
    have hE : epairs (pairsOf (b :: rest))
        = rest.map (fun c => (b.entity, c.entity)) ++ epairs (pairsOf rest) := by
      rw [pairsOf]
      simp [epairs, List.map_map, Function.comp]
    rw [hE]
    rw [List.pairwise_append]
    refine ⟨?_, ih hrest, ?_⟩
    · rw [List.pairwise_map]
      have hpw : rest.Pairwise (fun c d => c.entity ≠ d.entity) := by
        rw [← List.pairwise_map (f := fun c : Body => c.entity) (R := fun a b => a ≠ b)]
        exact hrest
      apply hpw.imp_of_mem
      intro c d hc hd hne hcon
      simp only [uEq] at hcon
      rcases hcon with ⟨hA, hB⟩ | ⟨hA, hB⟩
      · exact hne hB
      · exact hb (hA ▸ List.mem_map.mpr ⟨d, hd, rfl⟩)
    · intro q hq r hr
      obtain ⟨c, hc, rfl⟩ := List.mem_map.mp hq
      obtain ⟨pr, hpr, rfl⟩ := List.mem_map.mp hr
      obtain ⟨h1, h2⟩ := mem_pairsOf rest pr hpr
      intro hcon
      simp only [uEq] at hcon
      rcases hcon with ⟨hA, hB⟩ | ⟨hA, hB⟩
      · exact hb (hA ▸ List.mem_map.mpr ⟨pr.1, h1, rfl⟩)
      · exact hb (hA ▸ List.mem_map.mpr ⟨pr.2, h2, rfl⟩)

/-- C4 amended: when the bodies carry distinct entity ids, each body
appears at most once in any single group's members list after the scan
(each unordered pair is visited once); it can however appear in several
different groups' members lists, as the counterexample shows. -/
theorem member_once_per_group (G eps : ℝ) (bodies : List Body)
    (h : (entitiesOf bodies).Nodup) :
    ∀ kg ∈ (nbodyScan G eps bodies).groups, (memberEntities kg.2).Nodup := by
  rw [nbodyScan]
  apply foldl_members_nodup G eps (pairsOf bodies) ⟨forceOf bodies, []⟩
    (epairs_pairsOf_pairwise bodies h)
  intro kg hkg
  simp at hkg

/-- Witness for C4 amended on the three-body configuration. -/
theorem member_once_per_group_witness :
    (entitiesOf [⟨0, ⟨0, 0, 0⟩, 3, 1, ⟨0, 0, 0⟩, ⟨0, 0, 0⟩⟩,
        ⟨1, ⟨0, 0, 0⟩, 2, 1, ⟨0, 0, 0⟩, ⟨0, 0, 0⟩⟩,
        ⟨2, ⟨0, 0, 0⟩, 1, 1, ⟨0, 0, 0⟩, ⟨0, 0, 0⟩⟩]).Nodup ∧
    ∀ kg ∈ (nbodyScan 1 1 [⟨0, ⟨0, 0, 0⟩, 3, 1, ⟨0, 0, 0⟩, ⟨0, 0, 0⟩⟩,
        ⟨1, ⟨0, 0, 0⟩, 2, 1, ⟨0, 0, 0⟩, ⟨0, 0, 0⟩⟩,
        ⟨2, ⟨0, 0, 0⟩, 1, 1, ⟨0, 0, 0⟩, ⟨0, 0, 0⟩⟩]).groups,
      (memberEntities kg.2).Nodup :=
  ⟨by norm_num [entitiesOf],
    member_once_per_group 1 1 [⟨0, ⟨0, 0, 0⟩, 3, 1, ⟨0, 0, 0⟩, ⟨0, 0, 0⟩⟩,
        ⟨1, ⟨0, 0, 0⟩, 2, 1, ⟨0, 0, 0⟩, ⟨0, 0, 0⟩⟩,
        ⟨2, ⟨0, 0, 0⟩, 1, 1, ⟨0, 0, 0⟩, ⟨0, 0, 0⟩⟩] (by norm_num [entitiesOf])⟩

end Proto
